import Mathlib

/-!
Shallow embedding of the numerical core of the rl_pai visualisations:
the Gaussian-process linear algebra and kernels of
`source/gp-visualization.jsx`, the 2×2 Bayesian-regression algebra of
`source/bayesian_regression.jsx`, and the acquisition-function /
heuristic-posterior code of `source/bayesian-optimization.jsx`.

JavaScript numbers are modelled as real numbers; JS arrays indexed by
integers are modelled as `List ℝ` (with `getD _ 0` for indexing) or as
functions `ℕ → ℝ` for square matrices.  The 31-bit mask `& 0x7fffffff`
of the seeded generator is modelled as `% 2^31` on integers.
-/

namespace RlPai

/-! ### gp-visualization.jsx — matrix utilities -/

/-- Fuel-indexed Cholesky entry recursion.  `cholAux A f i j` computes the
entry `L[i][j]` of the Cholesky–Banachiewicz loop of `choleskyDecomposition`
in gp-visualization.jsx, provided `f > i + j`. -/
noncomputable def cholAux (A : ℕ → ℕ → ℝ) : ℕ → ℕ → ℕ → ℝ
  | 0, _, _ => 0
  | fuel + 1, i, j =>
    if i < j then 0
    else if i = j then
      Real.sqrt (max (A i i - ∑ k in Finset.range j, cholAux A fuel i k * cholAux A fuel j k)
        1e-10)
    else
      (A i j - ∑ k in Finset.range j, cholAux A fuel i k * cholAux A fuel j k) /
        cholAux A fuel j j

/-- `choleskyDecomposition A i j` is the `(i,j)` entry of the matrix `L`
returned by `choleskyDecomposition` in gp-visualization.jsx: zero above the
diagonal, `sqrt(max(A[i][i] - Σ_{k<i} L[i][k]², 1e-10))` on the diagonal and
`(A[i][j] - Σ_{k<j} L[i][k]·L[j][k]) / L[j][j]` below it. -/
noncomputable def choleskyDecomposition (A : ℕ → ℕ → ℝ) (i j : ℕ) : ℝ :=
  cholAux A (i + j + 1) i j

/-- Fuel-indexed forward substitution of `solveTriangularLower`. -/
noncomputable def solveLowerAux (L : ℕ → ℕ → ℝ) (b : ℕ → ℝ) : ℕ → ℕ → ℝ
  | 0, _ => 0
  | fuel + 1, i =>
    (b i - ∑ j in Finset.range i, L i j * solveLowerAux L b fuel j) / L i i

/-- `solveTriangularLower L b i` is `x[i]` from the forward-substitution loop
of `solveTriangularLower` in gp-visualization.jsx. -/
noncomputable def solveTriangularLower (L : ℕ → ℕ → ℝ) (b : ℕ → ℝ) (i : ℕ) : ℝ :=
  solveLowerAux L b (i + 1) i

/-- Fuel-indexed back substitution of `solveTriangularUpper` (the source
passes the lower factor and indexes it transposed, `U[j][i]`). -/
noncomputable def solveUpperAux (U : ℕ → ℕ → ℝ) (n : ℕ) (b : ℕ → ℝ) : ℕ → ℕ → ℝ
  | 0, _ => 0
  | fuel + 1, i =>
    (b i - ∑ j in Finset.Ico (i + 1) n, U j i * solveUpperAux U n b fuel j) / U i i

/-- `solveTriangularUpper U n b i` is `x[i]` from the back-substitution loop
of `solveTriangularUpper` in gp-visualization.jsx, for an `n × n` system. -/
noncomputable def solveTriangularUpper (U : ℕ → ℕ → ℝ) (n : ℕ) (b : ℕ → ℝ) (i : ℕ) : ℝ :=
  solveUpperAux U n b (n - i) i

/-- `matVecMult` of gp-visualization.jsx, for an `n`-row function matrix and
a list vector. -/
noncomputable def matVecMult (M : ℕ → ℕ → ℝ) (n : ℕ) (zv : List ℝ) : List ℝ :=
  (List.range n).map fun i => ∑ j in Finset.range n, M i j * zv.getD j 0

/-! ### gp-visualization.jsx — kernel functions -/

/-- `rbfKernel` of gp-visualization.jsx. -/
noncomputable def rbfKernel (x1 x2 lengthScale variance : ℝ) : ℝ :=
  variance * Real.exp (-0.5 * ((x1 - x2) * (x1 - x2)) / (lengthScale * lengthScale))

/-- `maternKernel` of gp-visualization.jsx, with `r = |x1 - x2| / lengthScale`
and the three hard-coded smoothness branches. -/
noncomputable def maternKernel (x1 x2 lengthScale variance nu : ℝ) : ℝ :=
  if |x1 - x2| / lengthScale < 1e-10 then variance
  else if nu = 0.5 then
    variance * Real.exp (-(|x1 - x2| / lengthScale))
  else if nu = 1.5 then
    variance * (1 + Real.sqrt 3 * (|x1 - x2| / lengthScale)) *
      Real.exp (-(Real.sqrt 3 * (|x1 - x2| / lengthScale)))
  else
    variance * (1 + Real.sqrt 5 * (|x1 - x2| / lengthScale) +
        5 * (|x1 - x2| / lengthScale) * (|x1 - x2| / lengthScale) / 3) *
      Real.exp (-(Real.sqrt 5 * (|x1 - x2| / lengthScale)))

/-- `periodicKernel` of gp-visualization.jsx. -/
noncomputable def periodicKernel (x1 x2 lengthScale variance period : ℝ) : ℝ :=
  variance * Real.exp (-2 * Real.sin (Real.pi * |x1 - x2| / period) *
    Real.sin (Real.pi * |x1 - x2| / period) / (lengthScale * lengthScale))

/-- The five values of the `kernelType` user state in gp-visualization.jsx. -/
inductive KernelType
  | rbf
  | matern12
  | matern32
  | matern52
  | periodic

/-- The `getKernel` dispatch of gp-visualization.jsx (periodic uses period 2,
the default branch is RBF). -/
noncomputable def getKernel (kt : KernelType) (lengthScale variance x1 x2 : ℝ) : ℝ :=
  match kt with
  | .matern12 => maternKernel x1 x2 lengthScale variance 0.5
  | .matern32 => maternKernel x1 x2 lengthScale variance 1.5
  | .matern52 => maternKernel x1 x2 lengthScale variance 2.5
  | .periodic => periodicKernel x1 x2 lengthScale variance 2
  | .rbf => rbfKernel x1 x2 lengthScale variance

/-! ### gp-visualization.jsx — prior covariance, posterior, prior samples -/

/-- The `priorCov` memo of gp-visualization.jsx: the kernel Gram matrix of the
query grid with `1e-6` jitter added to every diagonal entry. -/
noncomputable def priorCov (xGrid : List ℝ) (kt : KernelType) (lengthScale variance : ℝ) :
    ℕ → ℕ → ℝ :=
  fun i j =>
    getKernel kt lengthScale variance (xGrid.getD i 0) (xGrid.getD j 0) +
      if i = j then 1e-6 else 0

/-- The `Kxx` training matrix built inside the `posterior` memo of
gp-visualization.jsx: `K(X,X)` plus `noiseVariance` on the diagonal only
(no additional jitter is added here). -/
noncomputable def Kxx (X : List ℝ) (kt : KernelType) (lengthScale variance noiseVariance : ℝ) :
    ℕ → ℕ → ℝ :=
  fun i j =>
    getKernel kt lengthScale variance (X.getD i 0) (X.getD j 0) +
      if i = j then noiseVariance else 0

/-- Result record of the `posterior` memo of gp-visualization.jsx. -/
structure PosteriorResult where
  mean : List ℝ
  epistemicVar : List ℝ
  aleatoricVar : List ℝ

/-- The `posterior` memo of gp-visualization.jsx.  With no data points it
returns zero mean, the `priorCov` diagonal as epistemic variance, and the
noise variance as aleatoric variance; otherwise it Cholesky-factors `Kxx`,
solves for `alpha` by the two triangular solves, and clamps each predictive
variance at zero. -/
noncomputable def posterior (xGrid : List ℝ) (dataPoints : List (ℝ × ℝ)) (kt : KernelType)
    (lengthScale variance noiseVariance : ℝ) : PosteriorResult :=
  match dataPoints with
  | [] =>
    ⟨xGrid.map fun _ => 0,
     xGrid.mapIdx fun i _ => priorCov xGrid kt lengthScale variance i i,
     xGrid.map fun _ => noiseVariance⟩
  | p :: ps =>
    let X := (p :: ps).map Prod.fst
    let y := (p :: ps).map Prod.snd
    let n := X.length
    let L := choleskyDecomposition (Kxx X kt lengthScale variance noiseVariance)
    let alphaTemp := solveTriangularLower L fun i => y.getD i 0
    let alpha := solveTriangularUpper L n alphaTemp
    ⟨xGrid.map fun xs =>
       ∑ i in Finset.range n, getKernel kt lengthScale variance xs (X.getD i 0) * alpha i,
     xGrid.map fun xs =>
       max 0 (getKernel kt lengthScale variance xs xs -
         ∑ i in Finset.range n,
           solveTriangularLower L (fun q => getKernel kt lengthScale variance xs (X.getD q 0)) i *
             solveTriangularLower L (fun q => getKernel kt lengthScale variance xs (X.getD q 0)) i),
     xGrid.map fun _ => noiseVariance⟩

/-- The value returned by the `catch` branch of the `posterior` memo of
gp-visualization.jsx: identical to the no-observations result. -/
noncomputable def posteriorFallback (xGrid : List ℝ) (kt : KernelType)
    (lengthScale variance noiseVariance : ℝ) : PosteriorResult :=
  ⟨xGrid.map fun _ => 0,
   xGrid.mapIdx fun i _ => priorCov xGrid kt lengthScale variance i i,
   xGrid.map fun _ => noiseVariance⟩

/-- One step of the seeded linear congruential generator of the
`priorSamples` memo: `seed = (seed * 1103515245 + 12345) & 0x7fffffff`. -/
def lcgNext (seed : ℤ) : ℤ := (seed * 1103515245 + 12345) % 2147483648

/-- `seededRandom` of the `priorSamples` memo: advances the seed and returns
`seed / 0x7fffffff` together with the new seed. -/
noncomputable def seededRandom (seed : ℤ) : ℝ × ℤ :=
  ((lcgNext seed : ℝ) / 2147483647, lcgNext seed)

/-- `boxMullerSeeded` of the `priorSamples` memo: two seeded uniforms turned
into one normal draw, threading the seed. -/
noncomputable def boxMullerSeeded (seed : ℤ) : ℝ × ℤ :=
  match seededRandom seed with
  | (u1, s1) =>
    match seededRandom s1 with
    | (u2, s2) =>
      (Real.sqrt (-2 * Real.log (u1 + 1e-10)) * Real.cos (2 * Real.pi * u2), s2)

/-- The `xGrid.map(() => boxMullerSeeded())` draw of one standard-normal
vector, threading the seed through the grid in order. -/
noncomputable def sampleZ (xGrid : List ℝ) (seed : ℤ) : List ℝ × ℤ :=
  match xGrid with
  | [] => ([], seed)
  | _ :: rest =>
    match boxMullerSeeded seed with
    | (z, s1) =>
      match sampleZ rest s1 with
      | (zs, s2) => (z :: zs, s2)

/-- The name of each kernel type as the `kernelType` state string of
gp-visualization.jsx (its length enters the sampling seed). -/
def ktName : KernelType → String
  | .rbf => "rbf"
  | .matern12 => "matern12"
  | .matern32 => "matern32"
  | .matern52 => "matern52"
  | .periodic => "periodic"

/-- The sampling loop of `priorSamples`: `count` draws of `L·z`. -/
noncomputable def priorSamplesRec (L : ℕ → ℕ → ℝ) (xGrid : List ℝ) :
    ℕ → ℤ → List (List ℝ)
  | 0, _ => []
  | count + 1, seed =>
    match sampleZ xGrid seed with
    | (z, s1) => matVecMult L xGrid.length z :: priorSamplesRec L xGrid count s1

/-- The `priorSamples` memo of gp-visualization.jsx: seeds the generator from
`priorSeed + kernelType.length + ⌊lengthScale·100⌋ + ⌊variance·100⌋` and draws
five samples `L·z` with `L` the Cholesky factor of the jittered prior
covariance. -/
noncomputable def priorSamples (priorSeed : ℤ) (kt : KernelType)
    (lengthScale variance : ℝ) (xGrid : List ℝ) : List (List ℝ) :=
  priorSamplesRec (choleskyDecomposition (priorCov xGrid kt lengthScale variance)) xGrid 5
    (priorSeed + ((ktName kt).length : ℤ) + ⌊lengthScale * 100⌋ + ⌊variance * 100⌋)

/-! ### bayesian_regression.jsx — 2×2 matrix algebra -/

/-- `inverse2x2` of bayesian_regression.jsx on a 2×2 matrix
`((a, b), (c, d))`: the degenerate `1e10`-diagonal fallback when
`|det| < 1e-10`, otherwise the adjugate formula. -/
noncomputable def inverse2x2 (M : (ℝ × ℝ) × (ℝ × ℝ)) : (ℝ × ℝ) × (ℝ × ℝ) :=
  match M with
  | ((a, b), (c, d)) =>
    if |a * d - b * c| < 1e-10 then ((1e10, 0), (0, 1e10))
    else
      ((d / (a * d - b * c), -b / (a * d - b * c)),
       (-c / (a * d - b * c), a / (a * d - b * c)))

/-- The `matMul` triple loop of bayesian_regression.jsx instantiated at
2×2 matrices. -/
def mat2Mul (M N : (ℝ × ℝ) × (ℝ × ℝ)) : (ℝ × ℝ) × (ℝ × ℝ) :=
  match M, N with
  | ((a, b), (c, d)), ((e, f), (g, h)) =>
    ((a * e + b * g, a * f + b * h), (c * e + d * g, c * f + d * h))

/-! ### bayesian-optimization.jsx — helpers, heuristic posterior, acquisitions -/

/-- `gaussianPDF` of bayesian-optimization.jsx. -/
noncomputable def gaussianPDF (x mean std : ℝ) : ℝ :=
  Real.exp (-0.5 * ((x - mean) / std) ^ 2) / (std * Real.sqrt (2 * Real.pi))

/-- `gaussianCDF` of bayesian-optimization.jsx: the rational polynomial
approximation of the standard normal CDF. -/
noncomputable def gaussianCDF (x mean std : ℝ) : ℝ :=
  let z := (x - mean) / std
  let t := 1 / (1 + 0.2316419 * |z|)
  let d := 0.3989422804 * Real.exp (-z * z / 2)
  let p := d * t *
    (0.3193815 + t * (-0.3565638 + t * (1.781478 + t * (-1.821256 + t * 1.330274))))
  if z > 0 then 1 - p else p

/-- The local RBF `kernel` closure of `computeGPPosterior` in
bayesian-optimization.jsx. -/
noncomputable def boKernel (lengthScale x1 x2 : ℝ) : ℝ :=
  Real.exp (-0.5 * ((x1 - x2) / lengthScale) ^ 2)

/-- `Math.min(...)` over a list of distances (the two-or-more-observations
branch only evaluates it on nonempty lists). -/
noncomputable def listMin : List ℝ → ℝ
  | [] => 0
  | d :: ds => ds.foldl min d

/-- The two-or-more-observations branch of `computeGPPosterior` in
bayesian-optimization.jsx: a kernel-weighted average for the mean and the
distance heuristic `max(0.05, 1.5·(1 - exp(-minDist/lengthScale)))` for the
standard deviation. -/
noncomputable def computeGPPosteriorMulti (x : ℝ) (obs : List (ℝ × ℝ)) (lengthScale : ℝ) :
    ℝ × ℝ :=
  let totalWeight :=
    (obs.map fun o => Real.exp (-((x - o.1) * (x - o.1)) / (2 * lengthScale * lengthScale))).sum
  let weightedSum :=
    (obs.map fun o =>
      Real.exp (-((x - o.1) * (x - o.1)) / (2 * lengthScale * lengthScale)) * o.2).sum
  let minDist := listMin (obs.map fun o => |x - o.1|)
  (if 0 < totalWeight then weightedSum / totalWeight else 0,
   max 0.05 (1.5 * (1 - Real.exp (-minDist / lengthScale))))

/-- `computeGPPosterior` of bayesian-optimization.jsx, returning the pair
`(mean, std)`: `(0, 1.5)` with no observations, the exact one-point GP
formula with the variance floored at `0.001` for a single observation, and
the weighted-average heuristic otherwise. -/
noncomputable def computeGPPosterior (x : ℝ) (observations : List (ℝ × ℝ))
    (lengthScale noiseVar : ℝ) : ℝ × ℝ :=
  match observations with
  | [] => (0, 1.5)
  | [o] =>
    (boKernel lengthScale x o.1 / (boKernel lengthScale o.1 o.1 + noiseVar) * o.2,
     Real.sqrt (max 0.001 (boKernel lengthScale x x + noiseVar -
       boKernel lengthScale x o.1 / (boKernel lengthScale o.1 o.1 + noiseVar) *
         boKernel lengthScale x o.1)))
  | o1 :: o2 :: rest => computeGPPosteriorMulti x (o1 :: o2 :: rest) lengthScale

/-- `computeEI` of bayesian-optimization.jsx. -/
noncomputable def computeEI (mean std bestY : ℝ) : ℝ :=
  if std < 0.001 then 0
  else
    (mean - bestY) * gaussianCDF ((mean - bestY) / std) 0 1 +
      std * gaussianPDF ((mean - bestY) / std) 0 1

/-- `computePI` of bayesian-optimization.jsx. -/
noncomputable def computePI (mean std bestY xi : ℝ) : ℝ :=
  if std < 0.001 then 0
  else gaussianCDF ((mean - bestY - xi) / std) 0 1

/-- The 2×2 identity-like test matrix used to instantiate the Cholesky
reconstruction theorem. -/
def I2 : ℕ → ℕ → ℝ := fun i j => if i = j then 1 else 0

/-! ### Lemmas about the Cholesky recursion -/

/-- The fuel argument of `cholAux` is irrelevant once it exceeds `i + j`. -/
lemma cholAux_fuel_irrel (A : ℕ → ℕ → ℝ) :
    ∀ m i j f1 f2, i + j ≤ m → i + j < f1 → i + j < f2 →
      cholAux A f1 i j = cholAux A f2 i j := by
  intro m
  induction m with
  | zero =>
    intro i j f1 f2 hm h1 h2
    have hi : i = 0 := by omega
    have hj : j = 0 := by omega
    subst hi
    subst hj
    obtain ⟨a, rfl⟩ : ∃ a, f1 = a + 1 := ⟨f1 - 1, by omega⟩
    obtain ⟨b, rfl⟩ : ∃ b, f2 = b + 1 := ⟨f2 - 1, by omega⟩
    simp [cholAux]
  | succ m ih =>
    intro i j f1 f2 hm h1 h2
    obtain ⟨a, rfl⟩ : ∃ a, f1 = (i + j + a) + 1 := ⟨f1 - (i + j) - 1, by omega⟩
    obtain ⟨b, rfl⟩ : ∃ b, f2 = (i + j + b) + 1 := ⟨f2 - (i + j) - 1, by omega⟩
    by_cases hij : i < j
    · simp [cholAux, hij]
    · have hsum : ∀ c : ℕ,
          ∑ k in Finset.range j, cholAux A (i + j + c) i k * cholAux A (i + j + c) j k
            = ∑ k in Finset.range j, cholAux A (i + k + 1) i k * cholAux A (j + k + 1) j k := by
        intro c
        apply Finset.sum_congr rfl
        intro k hk
        rw [Finset.mem_range] at hk
        rw [ih i k (i + j + c) (i + k + 1) (by omega) (by omega) (by omega),
          ih j k (i + j + c) (j + k + 1) (by omega) (by omega) (by omega)]
      simp only [cholAux]
      rw [if_neg hij, if_neg hij, hsum a, hsum b]
      by_cases hij2 : i = j
      · rw [if_pos hij2, if_pos hij2]
      · rw [if_neg hij2, if_neg hij2,
          ih j j (i + j + a) (j + j + 1) (by omega) (by omega) (by omega),
          ih j j (i + j + b) (j + j + 1) (by omega) (by omega) (by omega)]

/-- Any sufficient fuel computes `choleskyDecomposition`. -/
lemma cholAux_eq_chol (A : ℕ → ℕ → ℝ) (f i j : ℕ) (hf : i + j < f) :
    cholAux A f i j = choleskyDecomposition A i j :=
  cholAux_fuel_irrel A (i + j) i j f (i + j + 1) le_rfl hf (by omega)

/-- Above the diagonal the Cholesky factor is zero. -/
lemma chol_upper (A : ℕ → ℕ → ℝ) {i j : ℕ} (h : i < j) :
    choleskyDecomposition A i j = 0 := by
  show cholAux A (i + j + 1) i j = 0
  simp [cholAux, h]

/-- The diagonal recurrence of `choleskyDecomposition`, with the `1e-10`
clamp under the square root. -/
lemma chol_diag_eq (A : ℕ → ℕ → ℝ) (i : ℕ) :
    choleskyDecomposition A i i =
      Real.sqrt (max (A i i - ∑ k in Finset.range i,
        choleskyDecomposition A i k * choleskyDecomposition A i k) 1e-10) := by
  have hS : ∑ k in Finset.range i, cholAux A (i + i) i k * cholAux A (i + i) i k
      = ∑ k in Finset.range i, choleskyDecomposition A i k * choleskyDecomposition A i k := by
    apply Finset.sum_congr rfl
    intro k hk
    rw [Finset.mem_range] at hk
    rw [cholAux_eq_chol A (i + i) i k (by omega)]
  show cholAux A (i + i + 1) i i = _
  simp only [cholAux]
  rw [if_neg (lt_irrefl i), if_pos (by trivial), hS]

/-- The below-diagonal recurrence of `choleskyDecomposition`. -/
lemma chol_offdiag_eq (A : ℕ → ℕ → ℝ) {i j : ℕ} (h : j < i) :
    choleskyDecomposition A i j =
      (A i j - ∑ k in Finset.range j,
        choleskyDecomposition A i k * choleskyDecomposition A j k) /
        choleskyDecomposition A j j := by
  have hS : ∑ k in Finset.range j, cholAux A (i + j) i k * cholAux A (i + j) j k
      = ∑ k in Finset.range j, choleskyDecomposition A i k * choleskyDecomposition A j k := by
    apply Finset.sum_congr rfl
    intro k hk
    rw [Finset.mem_range] at hk
    rw [cholAux_eq_chol A (i + j) i k (by omega), cholAux_eq_chol A (i + j) j k (by omega)]
  show cholAux A (i + j + 1) i j = _
  simp only [cholAux]
  rw [if_neg (by omega : ¬i < j), if_neg (by omega : ¬i = j), hS,
    cholAux_eq_chol A (i + j) j j (by omega)]

/-- Every diagonal entry of the factor is at least `√1e-10`. -/
lemma chol_diag_sqrt_le (A : ℕ → ℕ → ℝ) (i : ℕ) :
    Real.sqrt 1e-10 ≤ choleskyDecomposition A i i := by
  rw [chol_diag_eq]
  exact Real.sqrt_le_sqrt (le_max_right _ _)

/-- Every diagonal entry of the factor is strictly positive. -/
lemma chol_diag_pos (A : ℕ → ℕ → ℝ) (i : ℕ) :
    0 < choleskyDecomposition A i i := by
  rw [chol_diag_eq]
  apply Real.sqrt_pos.mpr
  exact lt_of_lt_of_le (by norm_num) (le_max_right _ _)

/-- Every diagonal entry of the factor is nonzero. -/
lemma chol_diag_ne_zero (A : ℕ → ℕ → ℝ) (i : ℕ) :
    choleskyDecomposition A i i ≠ 0 :=
  ne_of_gt (chol_diag_pos A i)

/-- Multiplying the below-diagonal recurrence back: row `i` against row `j`
reconstructs `A i j` for `j < i`, unconditionally. -/
lemma chol_recon_lower (A : ℕ → ℕ → ℝ) {i j : ℕ} (h : j < i) :
    ∑ k in Finset.range (j + 1),
      choleskyDecomposition A i k * choleskyDecomposition A j k = A i j := by
  rw [Finset.sum_range_succ, chol_offdiag_eq A h, div_mul_cancel₀ _ (chol_diag_ne_zero A j)]
  ring

/-- Entries past column `j` contribute nothing to a row-`j` inner product. -/
lemma chol_truncate (A : ℕ → ℕ → ℝ) {j n : ℕ} (i : ℕ) (hjn : j < n) :
    ∑ k in Finset.range n, choleskyDecomposition A i k * choleskyDecomposition A j k
      = ∑ k in Finset.range (j + 1),
        choleskyDecomposition A i k * choleskyDecomposition A j k := by
  symm
  apply Finset.sum_subset
  · intro k hk
    rw [Finset.mem_range] at hk ⊢
    omega
  · intro k hk hnk
    rw [Finset.mem_range] at hk hnk
    rw [chol_upper A (by omega : j < k), mul_zero]

/-! ### Kernel lemmas -/

/-- At zero distance the RBF kernel equals the signal variance. -/
lemma rbfKernel_self (lengthScale variance x : ℝ) :
    rbfKernel x x lengthScale variance = variance := by
  simp [rbfKernel]

/-- At zero distance the Matérn kernel equals the signal variance. -/
lemma maternKernel_self (lengthScale variance nu x : ℝ) :
    maternKernel x x lengthScale variance nu = variance := by
  unfold maternKernel
  rw [if_pos]
  rw [sub_self, abs_zero, zero_div]
  norm_num

/-- At zero distance the periodic kernel equals the signal variance. -/
lemma periodicKernel_self (lengthScale variance period x : ℝ) :
    periodicKernel x x lengthScale variance period = variance := by
  simp [periodicKernel]

/-- Every dispatched kernel has self-covariance equal to the variance. -/
lemma getKernel_self (kt : KernelType) (lengthScale variance x : ℝ) :
    getKernel kt lengthScale variance x x = variance := by
  cases kt
  · exact rbfKernel_self lengthScale variance x
  · exact maternKernel_self lengthScale variance 0.5 x
  · exact maternKernel_self lengthScale variance 1.5 x
  · exact maternKernel_self lengthScale variance 2.5 x
  · exact periodicKernel_self lengthScale variance 2 x

/-- The diagonal of the jittered prior covariance is the signal variance
plus the `1e-6` jitter, independently of the grid entry. -/
lemma priorCov_diag (xGrid : List ℝ) (kt : KernelType) (lengthScale variance : ℝ) (i : ℕ) :
    priorCov xGrid kt lengthScale variance i i = variance + 1e-6 := by
  unfold priorCov
  rw [if_pos rfl, getKernel_self]

/-! ### Claim theorems for the linear algebra (C1, C5, C6) -/

/-- C1: for a symmetric matrix `A` on which the diagonal clamp of
`choleskyDecomposition` is inactive (each pre-sqrt quantity
`A[i][i] - Σ_{k<i} L[i][k]²` is at least `1e-10`), the computed factor `L`
satisfies `L·Lᵗ = A` exactly on every entry of the `n × n` block. -/
theorem choleskyDecomposition_reconstructs (A : ℕ → ℕ → ℝ) (n : ℕ)
    (hsym : ∀ i j, i < n → j < n → A i j = A j i)
    (hclamp : ∀ i, i < n → 1e-10 ≤ A i i - ∑ k in Finset.range i,
      choleskyDecomposition A i k * choleskyDecomposition A i k) :
    ∀ i j, i < n → j < n →
      ∑ k in Finset.range n,
        choleskyDecomposition A i k * choleskyDecomposition A j k = A i j := by
  have key : ∀ i j, j < i → i < n → j < n →
      ∑ k in Finset.range n,
        choleskyDecomposition A i k * choleskyDecomposition A j k = A i j := by
    intro i j hji hi hj
    rw [chol_truncate A i hj, chol_recon_lower A hji]
  have diag : ∀ i, i < n →
      ∑ k in Finset.range n,
        choleskyDecomposition A i k * choleskyDecomposition A i k = A i i := by
    intro i hi
    have hmax : max (A i i - ∑ k in Finset.range i,
        choleskyDecomposition A i k * choleskyDecomposition A i k) 1e-10
        = A i i - ∑ k in Finset.range i,
          choleskyDecomposition A i k * choleskyDecomposition A i k :=
      max_eq_left (hclamp i hi)
    rw [chol_truncate A i hi, Finset.sum_range_succ, chol_diag_eq A i,
      Real.mul_self_sqrt (le_trans (by norm_num) (le_max_right _ _)), hmax]
    ring
  intro i j hi hj
  rcases lt_trichotomy j i with h | h | h
  · exact key i j h hi hj
  · subst h
    exact diag j hj
  · have hflip : ∑ k in Finset.range n,
        choleskyDecomposition A i k * choleskyDecomposition A j k
        = ∑ k in Finset.range n,
          choleskyDecomposition A j k * choleskyDecomposition A i k := by
      apply Finset.sum_congr rfl
      intro k _
      ring
    rw [hflip, key j i h hj hi]
    exact (hsym i j hi hj).symm

/-- Witness for C1: the reconstruction theorem applied to the concrete
2×2 identity matrix, whose clamp is inactive on both rows. -/
theorem choleskyDecomposition_reconstructs_witness :
    ∑ k in Finset.range 2, choleskyDecomposition I2 1 k * choleskyDecomposition I2 1 k
      = I2 1 1 := by
  refine choleskyDecomposition_reconstructs I2 2 ?_ ?_ 1 1 (by norm_num) (by norm_num)
  · intro i j _ _
    unfold I2
    by_cases h : i = j
    · subst h
      rfl
    · rw [if_neg h, if_neg (Ne.symm h)]
  · intro i hi
    interval_cases i
    · rw [Finset.sum_range_zero]
      simp only [I2, if_pos rfl]
      norm_num
    · rw [Finset.sum_range_one]
      have h10 : choleskyDecomposition I2 1 0 = 0 := by
        rw [chol_offdiag_eq I2 (by norm_num), Finset.sum_range_zero]
        simp [I2]
      rw [h10]
      simp only [I2, if_pos rfl]
      norm_num

/-- C5: `choleskyDecomposition` is total (the clamp keeps the pre-sqrt
quantity at least `1e-10`), every diagonal entry of its result is at least
`√1e-10`, hence strictly positive and nonzero — so the divisions by
`L[j][j]` inside `choleskyDecomposition` and by the diagonal entries inside
`solveTriangularLower` / `solveTriangularUpper` applied to that factor are
never by zero. -/
theorem choleskyDecomposition_diag_positive (A : ℕ → ℕ → ℝ) (i : ℕ) :
    Real.sqrt 1e-10 ≤ choleskyDecomposition A i i ∧
      0 < choleskyDecomposition A i i ∧ choleskyDecomposition A i i ≠ 0 :=
  ⟨chol_diag_sqrt_le A i, chol_diag_pos A i, chol_diag_ne_zero A i⟩

/-- C6: every kernel function is symmetric in its two input points — RBF,
Matérn for every `nu` (0.5, 1.5 and the default branch), periodic, and the
`getKernel` dispatch for every kernel type. -/
theorem kernels_symmetric (x1 x2 lengthScale variance nu period : ℝ) (kt : KernelType) :
    rbfKernel x1 x2 lengthScale variance = rbfKernel x2 x1 lengthScale variance ∧
      maternKernel x1 x2 lengthScale variance nu = maternKernel x2 x1 lengthScale variance nu ∧
      periodicKernel x1 x2 lengthScale variance period
        = periodicKernel x2 x1 lengthScale variance period ∧
      getKernel kt lengthScale variance x1 x2 = getKernel kt lengthScale variance x2 x1 := by
  have hrbf : ∀ a b : ℝ, rbfKernel a b lengthScale variance = rbfKernel b a lengthScale variance := by
    intro a b
    unfold rbfKernel
    rw [show (a - b) * (a - b) = (b - a) * (b - a) by ring]
  have hmat : ∀ m a b : ℝ,
      maternKernel a b lengthScale variance m = maternKernel b a lengthScale variance m := by
    intro m a b
    unfold maternKernel
    rw [abs_sub_comm a b]
  have hper : ∀ p a b : ℝ,
      periodicKernel a b lengthScale variance p = periodicKernel b a lengthScale variance p := by
    intro p a b
    unfold periodicKernel
    rw [abs_sub_comm a b]
  refine ⟨hrbf x1 x2, hmat nu x1 x2, hper period x1 x2, ?_⟩
  cases kt
  · exact hrbf x1 x2
  · exact hmat 0.5 x1 x2
  · exact hmat 1.5 x1 x2
  · exact hmat 2.5 x1 x2
  · exact hper 2 x1 x2

/-! ### Posterior lemmas (C2, C3, C4) -/

/-- Mapping a constant function over a list yields a replicate. -/
lemma map_const_eq_replicate (l : List ℝ) (c : ℝ) :
    (l.map fun _ => c) = List.replicate l.length c := by
  induction l with
  | nil => rfl
  | cons a t ih => simp [ih, List.replicate_succ]

/-- With no observations the epistemic variance of `posterior` is the
constant `variance + 1e-6` over the grid. -/
lemma posterior_nodata_epiVar (xGrid : List ℝ) (kt : KernelType)
    (lengthScale variance noiseVariance : ℝ) :
    (posterior xGrid [] kt lengthScale variance noiseVariance).epistemicVar
      = xGrid.map fun _ => variance + 1e-6 := by
  show (xGrid.mapIdx fun i _ => priorCov xGrid kt lengthScale variance i i)
    = xGrid.map fun _ => variance + 1e-6
  rw [List.mapIdx_eq_ofFn, map_const_eq_replicate, ← List.ofFn_const xGrid.length]
  congr 1
  funext i
  exact priorCov_diag xGrid kt lengthScale variance i

/-- The fallback record has the same epistemic variance as the
no-observations branch. -/
lemma posteriorFallback_epiVar (xGrid : List ℝ) (kt : KernelType)
    (lengthScale variance noiseVariance : ℝ) :
    (posteriorFallback xGrid kt lengthScale variance noiseVariance).epistemicVar
      = xGrid.map fun _ => variance + 1e-6 :=
  posterior_nodata_epiVar xGrid kt lengthScale variance noiseVariance

/-- C2: for nonnegative signal variance, every entry of the epistemic
variance computed by `posterior` is nonnegative — on the with-data path
(clamped at zero), on the no-observations path (prior variance plus jitter),
and on the exception-fallback record `posteriorFallback`. -/
theorem posterior_epistemicVar_nonneg (xGrid : List ℝ) (dataPoints : List (ℝ × ℝ))
    (kt : KernelType) (lengthScale variance noiseVariance : ℝ) (hv : 0 ≤ variance) :
    (∀ e ∈ (posterior xGrid dataPoints kt lengthScale variance noiseVariance).epistemicVar,
      0 ≤ e) ∧
    (∀ e ∈ (posteriorFallback xGrid kt lengthScale variance noiseVariance).epistemicVar,
      0 ≤ e) := by
  have hconst : ∀ e ∈ (xGrid.map fun _ : ℝ => variance + 1e-6), (0 : ℝ) ≤ e := by
    intro e he
    obtain ⟨a, _, rfl⟩ := List.mem_map.mp he
    have : (0 : ℝ) ≤ 1e-6 := by norm_num
    linarith
  constructor
  · intro e he
    match dataPoints with
    | [] =>
      rw [posterior_nodata_epiVar] at he
      exact hconst e he
    | p :: ps =>
      obtain ⟨a, _, rfl⟩ := List.mem_map.mp he
      exact le_max_left _ _
  · intro e he
    rw [posteriorFallback_epiVar] at he
    exact hconst e he

/-- Witness for C2: the variance entry of `posterior` on a concrete
one-point grid with unit variance is nonnegative. -/
theorem posterior_epistemicVar_nonneg_witness :
    0 ≤ ((posterior [0] [] KernelType.rbf 1 1 (1 / 20)).epistemicVar).getD 0 0 := by
  apply (posterior_epistemicVar_nonneg [0] [] KernelType.rbf 1 1 (1 / 20) (by norm_num)).1
  rw [posterior_nodata_epiVar]
  simp

/-- C3 counterexample: with an empty observation list and query grid `[0]`
(RBF kernel, unit hyperparameters), the variance returned by `posterior` is
`[1 + 1e-6]`, not `[kernel(0,0)] = [1]` — the claimed equality with the bare
prior variance fails because the `1e-6` jitter of `priorCov` is included. -/
theorem posterior_no_observations_counterexample :
    (posterior [0] [] KernelType.rbf 1 1 0).epistemicVar
      ≠ [0].map fun x => getKernel KernelType.rbf 1 1 x x := by
  rw [posterior_nodata_epiVar]
  intro h
  simp only [List.map_cons, List.map_nil, getKernel_self, List.cons.injEq] at h
  have h1 := h.1
  norm_num at h1

/-- C3 amended: with an empty observation list, `posterior` returns a mean
vector that is all zeros and a variance vector whose `i`-th entry equals
`kernel(queryPoints[i], queryPoints[i]) + 1e-6`, the prior variance plus the
jitter added to the prior covariance diagonal. -/
theorem posterior_no_observations (xGrid : List ℝ) (kt : KernelType)
    (lengthScale variance noiseVariance : ℝ) :
    (∀ m ∈ (posterior xGrid [] kt lengthScale variance noiseVariance).mean, m = 0) ∧
    (posterior xGrid [] kt lengthScale variance noiseVariance).epistemicVar
      = xGrid.map fun x => getKernel kt lengthScale variance x x + 1e-6 := by
  constructor
  · intro m hm
    have : (posterior xGrid [] kt lengthScale variance noiseVariance).mean
        = xGrid.map fun _ => (0 : ℝ) := rfl
    rw [this] at hm
    obtain ⟨a, _, rfl⟩ := List.mem_map.mp hm
    rfl
  · rw [posterior_nodata_epiVar]
    have : (xGrid.map fun x => getKernel kt lengthScale variance x x + 1e-6)
        = xGrid.map fun _ => variance + 1e-6 := by
      induction xGrid with
      | nil => rfl
      | cons a t ih => simp [getKernel_self, ih]
    rw [this]

/-- Witness for C3 (amended): on the concrete grid `[0]` the mean entry is
zero and the variance list matches the jittered prior variance. -/
theorem posterior_no_observations_witness :
    ((posterior [0] [] KernelType.rbf 1 1 (1 / 20)).mean).getD 0 37 = 0 ∧
    (posterior [0] [] KernelType.rbf 1 1 (1 / 20)).epistemicVar
      = [0].map fun x => getKernel KernelType.rbf 1 1 x x + 1e-6 := by
  constructor
  · apply (posterior_no_observations [0] KernelType.rbf 1 1 (1 / 20)).1
    simp [posterior]
  · exact (posterior_no_observations [0] KernelType.rbf 1 1 (1 / 20)).2

/-- C4 counterexample: with one observation at `x = 0` (RBF kernel, unit
hyperparameters, noise variance `0.05`) the diagonal entry of the matrix
`Kxx` handed to the Cholesky factorisation is exactly `k(0,0) + 0.05`; it is
not `k(0,0) + 0.05 + 1e-6`, so no `1e-6` jitter is added on the with-data
path. -/
theorem Kxx_no_jitter_counterexample :
    Kxx [0] KernelType.rbf 1 1 0.05 0 0 = rbfKernel 0 0 1 1 + 0.05 ∧
    Kxx [0] KernelType.rbf 1 1 0.05 0 0 ≠ rbfKernel 0 0 1 1 + 0.05 + 1e-6 := by
  have hrbf : rbfKernel 0 0 1 1 = 1 := rbfKernel_self 1 1 0
  have h : Kxx [0] KernelType.rbf 1 1 0.05 0 0 = 1 + 0.05 := by
    unfold Kxx
    rw [if_pos rfl]
    have : getKernel KernelType.rbf 1 1 (([0] : List ℝ).getD 0 0) (([0] : List ℝ).getD 0 0)
        = 1 := getKernel_self KernelType.rbf 1 1 _
    rw [this]
  constructor
  · rw [h, hrbf]
  · rw [h, hrbf]
    norm_num

/-- C4 amended: when there is at least one observation, the matrix that is
Cholesky-factored is `Kxx X ... = k(X,X) + noiseVariance·I` exactly — the
diagonal surplus over the kernel value is the noise variance alone, with no
additional jitter, and off-diagonal entries carry no noise term.
(`posterior` factors `choleskyDecomposition (Kxx X ...)` by definition.) -/
theorem Kxx_diagonal (X : List ℝ) (kt : KernelType)
    (lengthScale variance noiseVariance : ℝ) (i j : ℕ) :
    Kxx X kt lengthScale variance noiseVariance i i
      - getKernel kt lengthScale variance (X.getD i 0) (X.getD i 0) = noiseVariance ∧
    (i ≠ j → Kxx X kt lengthScale variance noiseVariance i j
      = getKernel kt lengthScale variance (X.getD i 0) (X.getD j 0)) := by
  constructor
  · unfold Kxx
    rw [if_pos rfl]
    ring
  · intro h
    unfold Kxx
    rw [if_neg h, add_zero]

/-- Witness for C4 (amended): concrete instantiation at a two-point training
set, discharging the off-diagonal hypothesis. -/
theorem Kxx_diagonal_witness :
    Kxx [0, 1] KernelType.rbf 1 1 0.05 0 1
      = getKernel KernelType.rbf 1 1 (([0, 1] : List ℝ).getD 0 0)
          (([0, 1] : List ℝ).getD 1 0) :=
  (Kxx_diagonal [0, 1] KernelType.rbf 1 1 0.05 0 1).2 (by norm_num)

/-! ### Claim theorems for bayesian_regression.jsx (C7) -/

/-- C7: the 2×2 inversion is total — when `|det| < 1e-10` it returns exactly
the `1e10`-diagonal fallback, and otherwise it returns the exact adjugate
inverse, which multiplies with the input to the identity on both sides. -/
theorem inverse2x2_total (a b c d : ℝ) :
    (|a * d - b * c| < 1e-10 →
      inverse2x2 ((a, b), (c, d)) = ((1e10, 0), (0, 1e10))) ∧
    (1e-10 ≤ |a * d - b * c| →
      inverse2x2 ((a, b), (c, d))
        = ((d / (a * d - b * c), -b / (a * d - b * c)),
           (-c / (a * d - b * c), a / (a * d - b * c))) ∧
      mat2Mul ((a, b), (c, d)) (inverse2x2 ((a, b), (c, d))) = ((1, 0), (0, 1)) ∧
      mat2Mul (inverse2x2 ((a, b), (c, d))) ((a, b), (c, d)) = ((1, 0), (0, 1))) := by
  constructor
  · intro h
    simp only [inverse2x2]
    rw [if_pos h]
  · intro h
    have hni : ¬|a * d - b * c| < 1e-10 := not_lt.mpr h
    have hdet : a * d - b * c ≠ 0 := by
      intro h0
      rw [h0, abs_zero] at h
      norm_num at h
    have hinv : inverse2x2 ((a, b), (c, d))
        = ((d / (a * d - b * c), -b / (a * d - b * c)),
           (-c / (a * d - b * c), a / (a * d - b * c))) := by
      simp only [inverse2x2]
      rw [if_neg hni]
    refine ⟨hinv, ?_, ?_⟩
    · rw [hinv]
      simp only [mat2Mul, Prod.mk.injEq]
      refine ⟨⟨?_, ?_⟩, ?_, ?_⟩ <;> field_simp <;> ring
    · rw [hinv]
      simp only [mat2Mul, Prod.mk.injEq]
      refine ⟨⟨?_, ?_⟩, ?_, ?_⟩ <;> field_simp <;> ring

/-- Witness for C7: the degenerate branch on the zero matrix and the
invertible branch on `2·I`. -/
theorem inverse2x2_total_witness :
    inverse2x2 ((0, 0), (0, 0)) = ((1e10, 0), (0, 1e10)) ∧
    mat2Mul ((2, 0), (0, 2)) (inverse2x2 ((2, 0), (0, 2))) = ((1, 0), (0, 1)) :=
  ⟨(inverse2x2_total 0 0 0 0).1 (by norm_num),
   ((inverse2x2_total 2 0 0 2).2 (by norm_num)).2.1⟩

/-! ### Claim theorems for bayesian-optimization.jsx (C8, C9) -/

/-- C8: below the `0.001` standard-deviation threshold both acquisition
functions `computeEI` and `computePI` return exactly zero. -/
theorem acquisition_zero_below_threshold (mean std bestY xi : ℝ) (h : std < 0.001) :
    computeEI mean std bestY = 0 ∧ computePI mean std bestY xi = 0 := by
  unfold computeEI computePI
  rw [if_pos h, if_pos h]
  exact ⟨rfl, rfl⟩

/-- Witness for C8: the threshold theorem at `std = 0.0005`. -/
theorem acquisition_zero_below_threshold_witness :
    computeEI 0 0.0005 1 = 0 ∧ computePI 0 0.0005 1 0.01 = 0 :=
  acquisition_zero_below_threshold 0 0.0005 1 0.01 (by norm_num)

/-- C9: `computeGPPosterior` of bayesian-optimization.jsx always returns a
strictly positive standard deviation: exactly `1.5` with no observations, at
least `√0.001` with one observation (the variance is floored at `0.001`),
and at least `0.05` with two or more observations. -/
theorem computeGPPosterior_std_floor (x : ℝ) (observations : List (ℝ × ℝ))
    (lengthScale noiseVar : ℝ) :
    (observations = [] →
      (computeGPPosterior x observations lengthScale noiseVar).2 = 1.5) ∧
    (observations.length = 1 →
      Real.sqrt 0.001 ≤ (computeGPPosterior x observations lengthScale noiseVar).2) ∧
    (2 ≤ observations.length →
      0.05 ≤ (computeGPPosterior x observations lengthScale noiseVar).2) ∧
    0 < (computeGPPosterior x observations lengthScale noiseVar).2 := by
  match observations with
  | [] =>
    refine ⟨fun _ => rfl, ?_, ?_, ?_⟩
    · intro h
      simp at h
    · intro h
      simp at h
    · show (0 : ℝ) < 1.5
      norm_num
  | [o] =>
    have hstd : (computeGPPosterior x [o] lengthScale noiseVar).2
        = Real.sqrt (max 0.001 (boKernel lengthScale x x + noiseVar -
            boKernel lengthScale x o.1 / (boKernel lengthScale o.1 o.1 + noiseVar) *
              boKernel lengthScale x o.1)) := rfl
    refine ⟨?_, fun _ => ?_, ?_, ?_⟩
    · intro h
      simp at h
    · rw [hstd]
      exact Real.sqrt_le_sqrt (le_max_left _ _)
    · intro h
      simp at h
    · rw [hstd]
      apply Real.sqrt_pos.mpr
      exact lt_of_lt_of_le (by norm_num) (le_max_left _ _)
  | o1 :: o2 :: rest =>
    have hstd : (computeGPPosterior x (o1 :: o2 :: rest) lengthScale noiseVar).2
        = max 0.05 (1.5 * (1 - Real.exp
            (-listMin ((o1 :: o2 :: rest).map fun o => |x - o.1|) / lengthScale))) := rfl
    refine ⟨?_, ?_, fun _ => ?_, ?_⟩
    · intro h
      simp at h
    · intro h
      simp at h
    · rw [hstd]
      exact le_max_left _ _
    · rw [hstd]
      exact lt_of_lt_of_le (by norm_num) (le_max_left _ _)

/-- Witness for C9: the three branches at concrete observation lists. -/
theorem computeGPPosterior_std_floor_witness :
    (computeGPPosterior 0 [] 1 0.01).2 = 1.5 ∧
    Real.sqrt 0.001 ≤ (computeGPPosterior 0 [(1, 2)] 1 0.01).2 ∧
    0.05 ≤ (computeGPPosterior 0 [(1, 2), (3, 4)] 1 0.01).2 :=
  ⟨(computeGPPosterior_std_floor 0 [] 1 0.01).1 rfl,
   (computeGPPosterior_std_floor 0 [(1, 2)] 1 0.01).2.1 rfl,
   (computeGPPosterior_std_floor 0 [(1, 2), (3, 4)] 1 0.01).2.2.1 (by simp)⟩

/-! ### Claim theorem for the seeded prior sampling (C10) -/

/-- C10: `priorSamples` is deterministic in `(priorSeed, kernelType,
lengthScale, variance)` and the grid — the seeded linear congruential
generator threads all randomness explicitly, so two runs on equal inputs
produce identical sample vectors. -/
theorem priorSamples_deterministic (s1 s2 : ℤ) (kt1 kt2 : KernelType)
    (ls1 ls2 v1 v2 : ℝ) (g1 g2 : List ℝ)
    (hs : s1 = s2) (hkt : kt1 = kt2) (hls : ls1 = ls2) (hv : v1 = v2) (hg : g1 = g2) :
    priorSamples s1 kt1 ls1 v1 g1 = priorSamples s2 kt2 ls2 v2 g2 := by
  subst hs
  subst hkt
  subst hls
  subst hv
  subst hg
  rfl

/-- Witness for C10: two identical runs on a concrete seed and grid. -/
theorem priorSamples_deterministic_witness :
    priorSamples 0 KernelType.rbf (3 / 10) 1 [0] = priorSamples 0 KernelType.rbf (3 / 10) 1 [0] :=
  priorSamples_deterministic 0 0 KernelType.rbf KernelType.rbf (3 / 10) (3 / 10) 1 1 [0] [0]
    rfl rfl rfl rfl rfl

end RlPai

